import Mathlib

/-!
Verification development for the dln-taker core:
a shallow embedding of `src/executors/executor.ts` (the `Executor` class and the
`UniversalProcessor` order pipeline) and
`src/processors/swap-connector-implementation.service.ts`
(`SwapConnectorImplementationService`), with theorems about the embedded code.

Modelling conventions:
* JavaScript `Set<string>` values are insertion-ordered lists without duplicates;
  `Set.add` appends a fresh element, `Set.delete` removes it (embedded as a filter,
  which agrees with `Set.delete` on duplicate-free lists).
* JavaScript `Map<string, V>` values are association lists keyed by the string.
* `bigint` is `Int` (JavaScript BigInt division truncates toward zero, i.e. `Int.tdiv`);
  JavaScript numbers holding USD values are rationals; gas units and block counts
  are naturals.
* External calls (RPC reads, price feeds, swap estimation, broadcasting) are
  modelled as oracle inputs; a call that can reject is an `Except Unit` value.
-/

namespace DlnTaker

/-! ### JavaScript collection primitives -/

/-- `Set.add`: appends the element unless already present (JS sets keep insertion
order and ignore re-insertion of an existing element). -/
def setAdd (l : List String) (x : String) : List String :=
  if x ∈ l then l else l ++ [x]

/-- `Set.delete`: removes the element.  On duplicate-free lists this filter is
exactly JS `Set.prototype.delete`. -/
def setDelete (l : List String) (x : String) : List String :=
  l.filter (fun y => y ≠ x)

/-- JS truthiness of an optional string: `undefined` and the empty string are falsy. -/
def jsTruthyString : Option String → Bool
  | none => false
  | some v => v ≠ ""

/-- JS truthiness of an optional number (`undefined` and `0` are falsy). -/
def jsTruthyNum : Option ℚ → Bool
  | none => false
  | some x => x ≠ 0

/-- The JS fallback chain `a || b || 0` on optional numbers. -/
def jsNumOr (a b : Option ℚ) : ℚ :=
  if jsTruthyNum a then a.getD 0 else if jsTruthyNum b then b.getD 0 else 0

theorem setDelete_not_mem (l : List String) (x : String) : x ∉ setDelete l x := by
  intro h
  rcases List.mem_filter.mp h with ⟨-, hx⟩
  simp at hx

theorem setDelete_length_le (l : List String) (x : String) :
    (setDelete l x).length ≤ l.length :=
  List.length_filter_le _ _

/-! ### `Executor.resyncDecimals` (executor.ts)

```ts
async resyncDecimals(chainIn, tokenIn, amountIn, chainOut, tokenOut) {
  const [decimalsIn, decimalsOut] = await Promise.all([
    this.client.getDecimals(chainIn, tokenIn),
    this.client.getDecimals(chainOut, tokenOut),
  ]);
  if (decimalsIn === decimalsOut) return amountIn;
  const delta = decimalsIn - decimalsOut;
  if (delta > 0) { return amountIn / 10n ** BigInt(delta); }
  else { return amountIn * 10n ** BigInt(-delta); }
}
```

The decimals of a (chain, token) pair are read from the client; we take that
lookup as an oracle argument `getDecimals`.  BigInt division truncates toward
zero, hence `Int.tdiv`. -/

def resyncDecimals (getDecimals : ℕ → ℕ → ℕ)
    (chainIn tokenIn : ℕ) (amountIn : ℤ) (chainOut tokenOut : ℕ) : ℤ :=
  let decimalsIn := getDecimals chainIn tokenIn
  let decimalsOut := getDecimals chainOut tokenOut
  if decimalsIn = decimalsOut then amountIn
  else
    let delta : ℤ := (decimalsIn : ℤ) - (decimalsOut : ℤ)
    if 0 < delta then amountIn.tdiv (10 ^ delta.toNat)
    else amountIn * 10 ^ (-delta).toNat

/-! ### Block-confirmation hard caps and `Executor.getSrcConstraintsPerOrderValue` -/

/-- The `SupportedChain` enum (config.ts), restricted to the chains that appear in
`BLOCK_CONFIRMATIONS_HARD_CAPS`. -/
inductive SupportedChain where
  | Arbitrum | Avalanche | BSC | Ethereum | Fantom | Linea | Base | Optimism
  | Polygon | Solana
deriving DecidableEq, Repr

/-- `BLOCK_CONFIRMATIONS_HARD_CAPS` (executor.ts). -/
def BLOCK_CONFIRMATIONS_HARD_CAPS : SupportedChain → ℕ
  | .Arbitrum => 15
  | .Avalanche => 15
  | .BSC => 15
  | .Ethereum => 12
  | .Fantom => 15
  | .Linea => 15
  | .Base => 15
  | .Optimism => 15
  | .Polygon => 256
  | .Solana => 32

/-- One entry of `constraints.requiredConfirmationsThresholds` from the raw config:
`thresholdAmountInUSD` with optional `minBlockConfirmations` and optional
`fulfillmentDelay`. -/
structure RawSrcThreshold where
  thresholdAmountInUSD : ℚ
  minBlockConfirmations : Option ℕ
  fulfillmentDelay : Option ℚ
deriving DecidableEq, Repr

/-- The chain-level `constraints` object: a default `fulfillmentDelay` plus the
per-order-value thresholds. -/
structure RawSrcConstraints where
  fulfillmentDelay : Option ℚ
  requiredConfirmationsThresholds : List RawSrcThreshold
deriving DecidableEq, Repr

/-- An element of `SrcConstraintsPerOrderValue` (executor.ts). -/
structure SrcConstraintPerOrderValue where
  upperThreshold : ℚ
  minBlockConfirmations : ℕ
  fulfillmentDelay : ℚ
deriving DecidableEq, Repr

/-- `getSrcConstraints` (executor.ts): truthy-fallback merge of the fulfillment
delay (`primary?.fulfillmentDelay || default?.fulfillmentDelay || 0`). -/
def getSrcConstraintsDelay (primary dflt : Option ℚ) : ℚ :=
  jsNumOr primary dflt

/-- The `.map` stage of `getSrcConstraintsPerOrderValue`: each threshold whose
`minBlockConfirmations || 0` reaches the chain's hard cap throws
(`minBlockConfirmations … must be less than max block confirmations …`). -/
def mapSrcThresholds (chain : SupportedChain) (dfltDelay : Option ℚ) :
    List RawSrcThreshold → Except String (List SrcConstraintPerOrderValue)
  | [] => Except.ok []
  | t :: ts =>
    if BLOCK_CONFIRMATIONS_HARD_CAPS chain ≤ t.minBlockConfirmations.getD 0 then
      Except.error "minBlockConfirmations must be less than max block confirmations"
    else
      match mapSrcThresholds chain dfltDelay ts with
      | Except.error e => Except.error e
      | Except.ok rest =>
          Except.ok ({ upperThreshold := t.thresholdAmountInUSD,
                       minBlockConfirmations := t.minBlockConfirmations.getD 0,
                       fulfillmentDelay := getSrcConstraintsDelay t.fulfillmentDelay dfltDelay } :: rest)

/-- Stable insertion of an element into a list sorted ascending by `upperThreshold`
(placed before the first strictly smaller-keyed — i.e. before the first element
whose key is ≥ — matching the stability of `Array.prototype.sort`). -/
def insertByUpperThreshold (x : SrcConstraintPerOrderValue) :
    List SrcConstraintPerOrderValue → List SrcConstraintPerOrderValue
  | [] => [x]
  | y :: ys =>
      if x.upperThreshold ≤ y.upperThreshold then x :: y :: ys
      else y :: insertByUpperThreshold x ys

/-- `.sort((a, b) => a.upperThreshold - b.upperThreshold)`: a stable ascending sort
by `upperThreshold`, embedded as stable insertion sort. -/
def sortByUpperThreshold : List SrcConstraintPerOrderValue → List SrcConstraintPerOrderValue
  | [] => []
  | x :: xs => insertByUpperThreshold x (sortByUpperThreshold xs)

/-- `Executor.getSrcConstraintsPerOrderValue` (executor.ts): map each configured
threshold — throwing when `minBlockConfirmations` reaches the hard cap — then sort
ascending by upper threshold. -/
def getSrcConstraintsPerOrderValue (chain : SupportedChain) (cfg : RawSrcConstraints) :
    Except String (List SrcConstraintPerOrderValue) :=
  match mapSrcThresholds chain cfg.fulfillmentDelay cfg.requiredConfirmationsThresholds with
  | Except.error e => Except.error e
  | Except.ok mapped => Except.ok (sortByUpperThreshold mapped)

/-! ### `SwapConnectorImplementationService` (swap-connector-implementation.service.ts) -/

/-- The connector table `#connectors`: chain id ↦ connector handle or `null`.
Chain ids and connector handles are abstract naturals. -/
structure SwapConnectorImplementationService where
  connectors : List (ℕ × Option ℕ)
deriving DecidableEq, Repr

/-- `this.#connectors[chainId]` (`none` both for `null` and for an absent key). -/
def lookupConnector (svc : SwapConnectorImplementationService) (chainId : ℕ) : Option ℕ :=
  match svc.connectors.find? (fun e => e.1 = chainId) with
  | some e => e.2
  | none => none

/-- `getSupportedChains`: the keys whose connector is not `null`. -/
def getSupportedChains (svc : SwapConnectorImplementationService) : List ℕ :=
  ((svc.connectors.map Prod.fst).filter
    (fun chainId => lookupConnector svc chainId ≠ none))

/-- `setSupportedChains` (swap-connector-implementation.service.ts):

```ts
setSupportedChains(chains: ChainId[]): void {
  Object.keys(this.#connectors)
    .map((chainId) => chainId as unknown as ChainId)
    .filter((chainId) => !chains.includes(chainId))
    .forEach((chainId) => this.#connectors[chainId] === null);
}
```

The `forEach` body is the comparison `=== null` (not an assignment), so its Boolean
result is discarded and the connector table is left untouched. -/
def setSupportedChains (svc : SwapConnectorImplementationService) (chains : List ℕ) :
    SwapConnectorImplementationService :=
  let _discarded :=
    ((svc.connectors.map Prod.fst).filter (fun chainId => ¬ chains.contains chainId)).map
      (fun chainId => decide (lookupConnector svc chainId = none))
  svc

/-! ### The `UniversalProcessor` order pipeline (executor.ts)

State of one per-take-chain `UniversalProcessor`:
`priorityQueue` and `queue` are JS `Set<string>` (insertion-ordered, no
duplicates), `incomingOrdersMap` is the `Map<string, IncomingOrderContext>`
restricted to the per-order data the pipeline inspects, `isLocked` is the
single in-flight slot.  The mempool scheduler (`MempoolService`,
src/processors/mempool.service.ts, not under src/) is modelled from the spec.
`unlockedOrders` records the ids handed to the `BatchUnlocker`
(`unlockOrder`/`addOrder`), `sentTxs` the ids whose fulfill transaction was
broadcast through `fulfillProvider.sendTransaction`; both stand for outbound
effects the theorems observe. -/

/-- `OrderInfoStatus` (interfaces): the statuses the processor dispatches on;
`Other` stands for every status handled by the `default` branch. -/
inductive OrderInfoStatus where
  | Created | ArchivalCreated | ArchivalFulfilled | Cancelled | Fulfilled | Other
deriving DecidableEq, Repr

/-- `finalization_info` of a `Created` incoming order:
`'Revoked' | { Confirmed: { confirmation_blocks_count } } | { Finalized: … }`. -/
inductive FinalizationInfo where
  | Revoked
  | Confirmed (confirmationBlocksCount : ℕ)
  | Finalized
deriving DecidableEq, Repr

/-- One entry of the give chain's `usdAmountConfirmations` config consulted by
`processOrder`: a USD range `(usdWorthFrom, usdWorthTo]` with its
`minBlockConfirmations`. -/
structure UsdWorthRange where
  usdWorthFrom : ℚ
  usdWorthTo : ℚ
  minBlockConfirmations : ℕ
deriving DecidableEq, Repr

/-- The slice of an `IncomingOrderContext` the pipeline state machine reads: the
feed status, the `finalization_info` (meaningful for `Created`), the retry
`attempts` counter carried by the context, and the give chain's configured
`usdAmountConfirmations` ranges reachable through `context.config`. -/
structure OrderCtx where
  status : OrderInfoStatus
  finalizationInfo : FinalizationInfo
  attempts : ℕ
  giveChainRanges : List UsdWorthRange
deriving DecidableEq, Repr

/-- `Map.get`: the value stored under the key. -/
def mapGet (m : List (String × OrderCtx)) (k : String) : Option OrderCtx :=
  match m.find? (fun e => e.1 = k) with
  | some e => some e.2
  | none => none

/-- `Map.set`: replaces any existing binding of the key. -/
def mapSet (m : List (String × OrderCtx)) (k : String) (v : OrderCtx) :
    List (String × OrderCtx) :=
  m.filter (fun e => e.1 ≠ k) ++ [(k, v)]

/-- `Map.delete`. -/
def mapDelete (m : List (String × OrderCtx)) (k : String) : List (String × OrderCtx) :=
  m.filter (fun e => e.1 ≠ k)

/-- Modelled from the spec: `MempoolService` (src/processors/mempool.service.ts is
not under src/).  §4.7: it maintains a per-order record and `addOrder(params,
delay?)` schedules a re-entry after `delay ?? mempoolInterval + attempts *
mempoolMaxDelayStep` seconds; `delete(orderId)` cancels.  We record the scheduled
entries as (order id, the explicit `delay` argument, `none` meaning the standard
backoff). -/
def mempoolAddOrder (mp : List (String × Option ℕ)) (id : String) (d : Option ℕ) :
    List (String × Option ℕ) :=
  mp.filter (fun e => e.1 ≠ id) ++ [(id, d)]

/-- Modelled from the spec: `MempoolService.delete` cancels the order's scheduled
re-entry (§4.7). -/
def mempoolDelete (mp : List (String × Option ℕ)) (id : String) : List (String × Option ℕ) :=
  mp.filter (fun e => e.1 ≠ id)

/-- Modelled from the spec: the delay the `MempoolService` applies to a scheduled
re-entry — the explicit `delay` argument if given, otherwise the standard backoff
`mempoolInterval + attempts * mempoolMaxDelayStep` (§4.7). -/
def mempoolEffectiveDelay (mempoolInterval mempoolMaxDelayStep attempts : ℕ)
    (d : Option ℕ) : ℕ :=
  d.getD (mempoolInterval + attempts * mempoolMaxDelayStep)

/-- The mutable state of one `UniversalProcessor` plus its outbound effects. -/
structure ProcState where
  priorityQueue : List String
  queue : List String
  incomingOrdersMap : List (String × OrderCtx)
  mempool : List (String × Option ℕ)
  isLocked : Bool
  unlockedOrders : List String
  sentTxs : List String
deriving DecidableEq, Repr

/-- `UniversalProcessor.clearInternalQueues`:

```ts
this.queue.delete(orderId);
this.priorityQueue.delete(orderId);
this.incomingOrdersMap.delete(orderId);
this.mempoolService.delete(orderId);
``` -/
def clearInternalQueues (s : ProcState) (orderId : String) : ProcState :=
  { s with
    queue := setDelete s.queue orderId
    priorityQueue := setDelete s.priorityQueue orderId
    incomingOrdersMap := mapDelete s.incomingOrdersMap orderId
    mempool := mempoolDelete s.mempool orderId }

/-- `this.mempoolService.addOrder(params, delay?)` as a state update. -/
def mempoolAddTo (s : ProcState) (orderId : String) (d : Option ℕ) : ProcState :=
  { s with mempool := mempoolAddOrder s.mempool orderId d }

/-- Result of `calculateExpectedTakeAmount` as far as the pipeline control flow
inspects it: `isProfitable`, and whether the returned `reserveDstToken` equals the
`pickedBucket.reserveDstToken` (`buffersAreEqual` check). -/
structure CalcResult where
  isProfitable : Bool
  reserveTokenAgrees : Bool
deriving DecidableEq, Repr

/-- Oracle for the external calls `processOrder` performs for one order.  An
`Except Unit` value is a call that can reject (its error propagates unless the
source wraps it in try/catch). -/
structure ExtOutcomes where
  /-- whether `context.config.buckets.find(...)` finds a bucket covering the order -/
  bucketFound : Bool
  /-- `getTakeOrderStatus`: `ok true` iff the status is set (not `NotSet`/`undefined`) -/
  takeOrderStatusSet : Except Unit Bool
  /-- `getGiveOrderStatus`: `ok true` iff the give-side status is `OrderState.Created` -/
  giveOrderCreated : Except Unit Bool
  /-- the USD worth computed from `getPrice` and `getDecimals` (either can reject) -/
  usdWorth : Except Unit ℚ
  /-- `getBalance` compared against `roughReserveDstAmount`: `ok true` iff sufficient -/
  balanceSufficient : Except Unit Bool
  /-- EVM preliminary `createOrderFullfillTx` + `estimateGas` (errors are caught) -/
  preEstimatedGas : Except Unit ℕ
  /-- `calculateExpectedTakeAmount` -/
  calcExpectedTakeAmount : Except Unit CalcResult
  /-- the final `createOrderFullfillTx` (not wrapped in try/catch) -/
  finalTxBuild : Except Unit Unit
  /-- EVM final `estimateGas` on the fulfill tx (errors are caught) -/
  finalGas : Except Unit ℕ
  /-- `fulfillProvider.sendTransaction` (errors are caught) -/
  sendOk : Bool
  /-- `waitIsOrderFulfilled` (not wrapped in try/catch) -/
  waitFulfilled : Except Unit Unit
deriving Repr

/-- `evmFulfillGasLimit = Math.round(estimate * EVM_FULFILL_GAS_MULTIPLIER)` with
`EVM_FULFILL_GAS_MULTIPLIER = 1.25`; `Math.round` rounds half away from zero on
positives, so this is `⌊(5g + 2) / 4⌋`. -/
def evmGasLimitCap (g : ℕ) : ℕ := (5 * g + 2) / 4

/-- `range = usdAmountConfirmations.find(r => r.usdWorthFrom < usdWorth && usdWorth <= r.usdWorthTo)`:
the first configured range containing the order's USD worth. -/
def findConfirmationRange (ranges : List UsdWorthRange) (w : ℚ) : Option UsdWorthRange :=
  ranges.find? (fun r => decide (r.usdWorthFrom < w) && decide (w ≤ r.usdWorthTo))

/-- Outcome of the confirmation-threshold block of `processOrder`
(executor.ts lines 907–972). -/
inductive ConfirmationOutcome where
  /-- fall through to the rest of `processOrder`, carrying `allowPlaceToMempool` -/
  | proceed (allowPlaceToMempool : Bool)
  /-- an early `return` (with the state as modified by the block) -/
  | finish (s : ProcState)
  /-- the price/decimals fetch rejected; the error propagates -/
  | thrown
deriving Repr

/-- The confirmation-threshold block of `processOrder`: for a `Created` order,
`Revoked` clears the queues and returns; `Confirmed{n}` bars the order from the
mempool, computes the USD worth, and looks up the first matching range — the JS
guard `if (range?.minBlockConfirmations)` sends both a missing range and a range
with `minBlockConfirmations == 0` to the rejecting `else` branch; `Finalized`
(and non-`Created` statuses) fall through with the mempool allowed. -/
def confirmationCheck (o : ExtOutcomes) (s : ProcState) (orderId : String)
    (ctx : OrderCtx) : ConfirmationOutcome :=
  if ctx.status = OrderInfoStatus.Created then
    match ctx.finalizationInfo with
    | FinalizationInfo.Revoked =>
        ConfirmationOutcome.finish (clearInternalQueues s orderId)
    | FinalizationInfo.Confirmed announcedConfirmation =>
        -- `allowPlaceToMempool = false` from here on
        match o.usdWorth with
        | Except.error _ => ConfirmationOutcome.thrown
        | Except.ok usdWorth =>
          match findConfirmationRange ctx.giveChainRanges usdWorth with
          | some range =>
            if range.minBlockConfirmations ≠ 0 then
              if announcedConfirmation < range.minBlockConfirmations then
                ConfirmationOutcome.finish s
              else ConfirmationOutcome.proceed false
            else ConfirmationOutcome.finish s
          | none => ConfirmationOutcome.finish s
    | FinalizationInfo.Finalized => ConfirmationOutcome.proceed true
  else ConfirmationOutcome.proceed true

/-- The tail of `processOrder` from the broadcast on: `sendTransaction` failure is
caught and mempools the order only when allowed; then `waitIsOrderFulfilled`
(uncaught), `clearInternalQueues`, and the hand-off to `BatchUnlocker.addOrder`. -/
def processOrderBroadcast (o : ExtOutcomes) (allowPlaceToMempool : Bool)
    (s : ProcState) (orderId : String) : ProcState × Except Unit Unit :=
  if o.sendOk = false then
    (if allowPlaceToMempool then mempoolAddTo s orderId none else s, Except.ok ())
  else
    let s1 := { s with sentTxs := s.sentTxs ++ [orderId] }
    match o.waitFulfilled with
    | Except.error e => (s1, Except.error e)
    | Except.ok _ =>
        let s2 := clearInternalQueues s1 orderId
        ({ s2 with unlockedOrders := s2.unlockedOrders ++ [orderId] }, Except.ok ())

/-- The tail of `processOrder` from `calculateExpectedTakeAmount` on: an
unprofitable order is mempooled only when allowed; a reserve-token disagreement is
dropped; on an EVM take chain the final gas estimate is compared against the
declared `evmFulfillGasLimit` — a blowout mempools with a 5-second fast-track
delay while `params.attempts < 2` and with the standard delay otherwise, and a
failing estimate is caught and mempooled. -/
def processOrderAfterEstimation (chainIsEvm : Bool) (o : ExtOutcomes)
    (allowPlaceToMempool : Bool) (evmFulfillGasLimit : Option ℕ) (attempts : ℕ)
    (s : ProcState) (orderId : String) : ProcState × Except Unit Unit :=
  match o.calcExpectedTakeAmount with
  | Except.error e => (s, Except.error e)
  | Except.ok r =>
    if r.isProfitable = false then
      (if allowPlaceToMempool then mempoolAddTo s orderId none else s, Except.ok ())
    else if r.reserveTokenAgrees = false then
      (s, Except.ok ())   -- "internal error: … picked … as reserve token, while …" → drop
    else
      match o.finalTxBuild with
      | Except.error e => (s, Except.error e)
      | Except.ok _ =>
        if chainIsEvm then
          match o.finalGas with
          | Except.error _ => (mempoolAddTo s orderId none, Except.ok ())
          | Except.ok evmFulfillGas =>
            if evmFulfillGasLimit.getD 0 < evmFulfillGas then
              -- `maxFastTrackAttempts = 2`, `fastTrackDelay = 5`
              (mempoolAddTo s orderId (if attempts < 2 then some 5 else none), Except.ok ())
            else processOrderBroadcast o allowPlaceToMempool s orderId
        else processOrderBroadcast o allowPlaceToMempool s orderId

/-- The middle of `processOrder`: the reserve-balance check (mempooling an
insufficient balance — note: without consulting `allowPlaceToMempool`) and, on an
EVM take chain, the preliminary fulfill-tx construction and gas estimation whose
failure is caught and mempooled (also unconditionally). -/
def processOrderAfterConfirmation (chainIsEvm : Bool) (o : ExtOutcomes)
    (allowPlaceToMempool : Bool) (attempts : ℕ) (s : ProcState) (orderId : String) :
    ProcState × Except Unit Unit :=
  match o.balanceSufficient with
  | Except.error e => (s, Except.error e)
  | Except.ok sufficient =>
    if sufficient = false then
      (mempoolAddTo s orderId none, Except.ok ())
    else
      if chainIsEvm then
        match o.preEstimatedGas with
        | Except.error _ => (mempoolAddTo s orderId none, Except.ok ())
        | Except.ok g =>
            processOrderAfterEstimation true o allowPlaceToMempool
              (some (evmGasLimitCap g)) attempts s orderId
      else
        processOrderAfterEstimation false o allowPlaceToMempool none attempts s orderId

/-- `UniversalProcessor.processOrder` (executor.ts lines 858–1162): the per-order
pipeline run, as a state transformer paired with its termination mode
(`Except.error` = an uncaught rejection propagating to `tryProcess`). -/
def processOrder (chainIsEvm : Bool) (ext : String → ExtOutcomes) (s : ProcState)
    (orderId : String) : ProcState × Except Unit Unit :=
  match mapGet s.incomingOrdersMap orderId with
  | none => (s, Except.error ())   -- `throw new Error("Unexpected: missing data for order")`
  | some ctx =>
    if (ext orderId).bucketFound = false then (s, Except.ok ())   -- "no bucket found …, skipping"
    else
      match (ext orderId).takeOrderStatusSet with
      | Except.error e => (s, Except.error e)
      | Except.ok statusSet =>
        if statusSet then (s, Except.ok ())   -- "order is already handled …, skipping"
        else
          match (ext orderId).giveOrderCreated with
          | Except.error e => (s, Except.error e)
          | Except.ok giveCreated =>
            if giveCreated = false then (s, Except.ok ())   -- "inexistent order, skipping"
            else
              match confirmationCheck (ext orderId) s orderId ctx with
              | ConfirmationOutcome.thrown => (s, Except.error ())
              | ConfirmationOutcome.finish s2 => (s2, Except.ok ())
              | ConfirmationOutcome.proceed allowPlaceToMempool =>
                  processOrderAfterConfirmation chainIsEvm (ext orderId) allowPlaceToMempool
                    ctx.attempts s orderId

/-- `UniversalProcessor.pickNextOrder`:

```ts
const nextOrderId = this.priorityQueue.values().next().value || this.queue.values().next().value;
if (nextOrderId) {
  this.priorityQueue.delete(nextOrderId);
  this.queue.delete(nextOrderId);
  return nextOrderId;
}
```

`||` and `if` use JS truthiness (an empty set yields `undefined`, which is falsy,
as is the empty string). -/
def pickNextOrder (s : ProcState) : Option String × ProcState :=
  match (if jsTruthyString s.priorityQueue.head? then s.priorityQueue.head?
         else s.queue.head?) with
  | none => (none, s)
  | some nid =>
      if nid = "" then (none, s)
      else
        (some nid, { s with priorityQueue := setDelete s.priorityQueue nid,
                            queue := setDelete s.queue nid })

/-- The combined size of the two drain queues (the termination measure of the
`tryProcess` recursion). -/
def queuesMeasure (s : ProcState) : ℕ := s.priorityQueue.length + s.queue.length

/-- The state after one `processOrder` run inside `tryProcess`: the lock is taken,
`processOrder` runs (its rejection, if any, is caught and only logged), and the
lock is released. -/
def afterProcessing (chainIsEvm : Bool) (ext : String → ExtOutcomes) (s : ProcState)
    (orderId : String) : ProcState :=
  { (processOrder chainIsEvm ext { s with isLocked := true } orderId).1 with
    isLocked := false }

theorem clearInternalQueues_queuesMeasure_le (s : ProcState) (id : String) :
    queuesMeasure (clearInternalQueues s id) ≤ queuesMeasure s := by
  have h1 := setDelete_length_le s.priorityQueue id
  have h2 := setDelete_length_le s.queue id
  simp only [queuesMeasure, clearInternalQueues]
  omega

theorem setDelete_cons_self (ys : List String) (y : String) :
    setDelete (y :: ys) y = setDelete ys y := by
  simp [setDelete, List.filter_cons]

theorem setDelete_cons_ne (ys : List String) (y x : String) (hyx : ¬ y = x) :
    setDelete (y :: ys) x = y :: setDelete ys x := by
  simp [setDelete, List.filter_cons, hyx]

theorem setDelete_length_lt_of_mem (l : List String) (x : String) (hx : x ∈ l) :
    (setDelete l x).length < l.length := by
  induction l with
  | nil => cases hx
  | cons y ys ih =>
    by_cases hyx : y = x
    · subst hyx
      have h := setDelete_length_le ys y
      rw [setDelete_cons_self]
      simp only [List.length_cons]
      omega
    · have hmem : x ∈ ys := by
        rcases List.mem_cons.mp hx with h | h
        · exact absurd h.symm hyx
        · exact h
      have h := ih hmem
      rw [setDelete_cons_ne _ _ _ hyx]
      simp only [List.length_cons]
      omega

theorem processOrderBroadcast_queuesMeasure_le (o : ExtOutcomes) (a : Bool)
    (s : ProcState) (id : String) :
    queuesMeasure (processOrderBroadcast o a s id).1 ≤ queuesMeasure s := by
  have hclear := clearInternalQueues_queuesMeasure_le { s with sentTxs := s.sentTxs ++ [id] } id
  unfold processOrderBroadcast
  repeat' split
  all_goals simp_all [mempoolAddTo, queuesMeasure, clearInternalQueues]

theorem processOrderAfterEstimation_queuesMeasure_le (c : Bool) (o : ExtOutcomes)
    (a : Bool) (gl : Option ℕ) (att : ℕ) (s : ProcState) (id : String) :
    queuesMeasure (processOrderAfterEstimation c o a gl att s id).1 ≤ queuesMeasure s := by
  have hb := processOrderBroadcast_queuesMeasure_le o a s id
  unfold processOrderAfterEstimation
  repeat' split
  all_goals first
    | exact hb
    | simp [mempoolAddTo, queuesMeasure]

theorem processOrderAfterConfirmation_queuesMeasure_le (c : Bool) (o : ExtOutcomes)
    (a : Bool) (att : ℕ) (s : ProcState) (id : String) :
    queuesMeasure (processOrderAfterConfirmation c o a att s id).1 ≤ queuesMeasure s := by
  unfold processOrderAfterConfirmation
  repeat' split
  all_goals first
    | exact processOrderAfterEstimation_queuesMeasure_le _ _ _ _ _ _ _
    | simp [mempoolAddTo, queuesMeasure]

theorem confirmationCheck_finish_queuesMeasure_le (o : ExtOutcomes) (s : ProcState)
    (id : String) (ctx : OrderCtx) (s2 : ProcState)
    (h : confirmationCheck o s id ctx = ConfirmationOutcome.finish s2) :
    queuesMeasure s2 ≤ queuesMeasure s := by
  have hclear := clearInternalQueues_queuesMeasure_le s id
  unfold confirmationCheck at h
  repeat' split at h
  all_goals cases h
  all_goals first | exact hclear | exact le_refl _

theorem processOrder_queuesMeasure_le (c : Bool) (ext : String → ExtOutcomes)
    (s : ProcState) (id : String) :
    queuesMeasure (processOrder c ext s id).1 ≤ queuesMeasure s := by
  unfold processOrder
  repeat' split
  all_goals first
    | (simp [queuesMeasure]; done)
    | (rename_i hconf
       exact confirmationCheck_finish_queuesMeasure_le _ _ _ _ _ hconf)
    | exact processOrderAfterConfirmation_queuesMeasure_le _ _ _ _ _ _

theorem pickNextOrder_isSome_queuesMeasure_lt (s : ProcState)
    (h : (pickNextOrder s).1.isSome) :
    queuesMeasure (pickNextOrder s).2 < queuesMeasure s := by
  unfold pickNextOrder at h ⊢
  by_cases hp : jsTruthyString s.priorityQueue.head? = true
  · rw [if_pos hp] at h ⊢
    cases hq : s.priorityQueue with
    | nil => simp [jsTruthyString, hq] at hp
    | cons x xs =>
      have hx : ¬ x = "" := by
        simp only [hq, List.head?_cons, jsTruthyString] at hp
        simpa using hp
      rw [hq] at h
      simp only [List.head?_cons] at h ⊢
      rw [if_neg hx] at h ⊢
      have h1 : (setDelete (x :: xs) x).length < (x :: xs).length :=
        setDelete_length_lt_of_mem _ _ (List.mem_cons_self x xs)
      have h2 := setDelete_length_le s.queue x
      simp only [queuesMeasure, hq]
      omega
  · rw [if_neg hp] at h ⊢
    cases hq : s.queue with
    | nil =>
      rw [hq] at h
      simp at h
    | cons x xs =>
      rw [hq] at h
      simp only [List.head?_cons] at h ⊢
      by_cases hx : x = ""
      · rw [hx] at h
        simp at h
      · rw [if_neg hx] at h ⊢
        have h1 : (setDelete (x :: xs) x).length < (x :: xs).length :=
          setDelete_length_lt_of_mem _ _ (List.mem_cons_self x xs)
        have h2 := setDelete_length_le s.priorityQueue x
        simp only [queuesMeasure, hq]
        omega

theorem afterProcessing_queuesMeasure_le (c : Bool) (ext : String → ExtOutcomes)
    (s : ProcState) (id : String) :
    queuesMeasure (afterProcessing c ext s id) ≤ queuesMeasure s := by
  have h := processOrder_queuesMeasure_le c ext { s with isLocked := true } id
  simpa [afterProcessing, queuesMeasure] using h

/-- `UniversalProcessor.tryProcess` (executor.ts lines 795–843): a missing map
entry throws (state unchanged); while the slot is held, `Created` orders go to the
priority queue and `ArchivalCreated` orders to the secondary queue (any other
status throws, state unchanged); otherwise the slot is taken, `processOrder` runs
with its errors caught and logged, the slot is released, and the drain recurses
into `pickNextOrder`'s choice. -/
def tryProcess (chainIsEvm : Bool) (ext : String → ExtOutcomes) (s : ProcState)
    (orderId : String) : ProcState :=
  match mapGet s.incomingOrdersMap orderId with
  | none => s
  | some ctx =>
    if s.isLocked then
      match ctx.status with
      | OrderInfoStatus.ArchivalCreated => { s with queue := setAdd s.queue orderId }
      | OrderInfoStatus.Created =>
          { s with priorityQueue := setAdd s.priorityQueue orderId }
      | _ => s
    else
      if hp : (pickNextOrder (afterProcessing chainIsEvm ext s orderId)).1.isSome then
        tryProcess chainIsEvm ext
          (pickNextOrder (afterProcessing chainIsEvm ext s orderId)).2
          ((pickNextOrder (afterProcessing chainIsEvm ext s orderId)).1.get hp)
      else (pickNextOrder (afterProcessing chainIsEvm ext s orderId)).2
termination_by queuesMeasure s
decreasing_by
  have h1 := afterProcessing_queuesMeasure_le chainIsEvm ext s orderId
  have h2 := pickNextOrder_isSome_queuesMeasure_lt (afterProcessing chainIsEvm ext s orderId) hp
  omega

/-- `UniversalProcessor.process` (executor.ts lines 748–786): the event entry
point.  `Created`/`ArchivalCreated` store the context in `incomingOrdersMap` and
call `tryProcess`; `ArchivalFulfilled` hands the order to the batch unlocker;
`Cancelled` clears the internal queues; `Fulfilled` clears the internal queues and
hands the order to the batch unlocker; other statuses are logged and dropped. -/
def process (chainIsEvm : Bool) (ext : String → ExtOutcomes) (s : ProcState)
    (orderId : String) (ctx : OrderCtx) : ProcState :=
  match ctx.status with
  | OrderInfoStatus.ArchivalCreated | OrderInfoStatus.Created =>
      tryProcess chainIsEvm ext
        { s with incomingOrdersMap := mapSet s.incomingOrdersMap orderId ctx } orderId
  | OrderInfoStatus.ArchivalFulfilled =>
      { s with unlockedOrders := s.unlockedOrders ++ [orderId] }
  | OrderInfoStatus.Cancelled => clearInternalQueues s orderId
  | OrderInfoStatus.Fulfilled =>
      let s1 := clearInternalQueues s orderId
      { s1 with unlockedOrders := s1.unlockedOrders ++ [orderId] }
  | OrderInfoStatus.Other => s

deriving instance DecidableEq for Except

/-! ### Concrete fixtures used by witnesses and counterexamples -/

/-- The processor state at startup: empty queues, no in-flight order. -/
def emptyProcState : ProcState :=
  { priorityQueue := [], queue := [], incomingOrdersMap := [], mempool := [],
    isLocked := false, unlockedOrders := [], sentTxs := [] }

/-- A baseline oracle on which every external call of `processOrder` succeeds
benignly: a bucket exists, the order is untouched on the take chain and `Created`
on the give chain, the balance suffices, estimations succeed with matching gas,
the order is profitable, and broadcast and wait succeed. -/
def extOk : String → ExtOutcomes := fun _ =>
  { bucketFound := true
    takeOrderStatusSet := Except.ok false
    giveOrderCreated := Except.ok true
    usdWorth := Except.ok 500
    balanceSufficient := Except.ok true
    preEstimatedGas := Except.ok 100000
    calcExpectedTakeAmount := Except.ok { isProfitable := true, reserveTokenAgrees := true }
    finalTxBuild := Except.ok ()
    finalGas := Except.ok 100000
    sendOk := true
    waitFulfilled := Except.ok () }

/-- A `Created` order already announced as finalized. -/
def ctxCreatedFinalized : OrderCtx :=
  { status := OrderInfoStatus.Created, finalizationInfo := FinalizationInfo.Finalized,
    attempts := 0, giveChainRanges := [] }

/-- A `Created` order announced with 13 confirmations on a give chain whose only
configured range is `(0, 1000]` with `minBlockConfirmations = 12`. -/
def ctxConfirmed13 : OrderCtx :=
  { status := OrderInfoStatus.Created, finalizationInfo := FinalizationInfo.Confirmed 13,
    attempts := 0,
    giveChainRanges := [{ usdWorthFrom := 0, usdWorthTo := 1000, minBlockConfirmations := 12 }] }

/-- A state holding only the `ctxConfirmed13` order "a". -/
def stConfirmed13 : ProcState :=
  { emptyProcState with incomingOrdersMap := [("a", ctxConfirmed13)] }

/-- A `Created` order announced with 7 confirmations on a give chain whose only
configured range is `(0, 1000]` with `minBlockConfirmations = 0`. -/
def ctxConfirmedZeroRange : OrderCtx :=
  { status := OrderInfoStatus.Created, finalizationInfo := FinalizationInfo.Confirmed 7,
    attempts := 0,
    giveChainRanges := [{ usdWorthFrom := 0, usdWorthTo := 1000, minBlockConfirmations := 0 }] }

/-- A state holding only the `ctxConfirmedZeroRange` order "a". -/
def stConfirmedZeroRange : ProcState :=
  { emptyProcState with incomingOrdersMap := [("a", ctxConfirmedZeroRange)] }

/-! ### Claim theorems -/

theorem findConfirmationRange_some (ranges : List UsdWorthRange) (w : ℚ)
    (r : UsdWorthRange) (h : findConfirmationRange ranges w = some r) :
    r ∈ ranges ∧ r.usdWorthFrom < w ∧ w ≤ r.usdWorthTo := by
  refine ⟨List.mem_of_find?_eq_some h, ?_⟩
  have hp := List.find?_some h
  simp only [Bool.and_eq_true, decide_eq_true_eq] at hp
  exact hp

theorem findConfirmationRange_first (l1 : List UsdWorthRange) (r : UsdWorthRange)
    (l2 : List UsdWorthRange) (w : ℚ)
    (hnone : ∀ u ∈ l1, ¬ (u.usdWorthFrom < w ∧ w ≤ u.usdWorthTo))
    (hfrom : r.usdWorthFrom < w) (hto : w ≤ r.usdWorthTo) :
    findConfirmationRange (l1 ++ r :: l2) w = some r := by
  induction l1 with
  | nil =>
    simp [findConfirmationRange, List.find?_cons, hfrom, hto]
  | cons x xs ih =>
    have hx := hnone x (List.mem_cons_self x xs)
    have hpx : (decide (x.usdWorthFrom < w) && decide (w ≤ x.usdWorthTo)) = false := by
      rcases Classical.em (x.usdWorthFrom < w) with h1 | h1
      · rcases Classical.em (w ≤ x.usdWorthTo) with h2 | h2
        · exact absurd ⟨h1, h2⟩ hx
        · simp [h2]
      · simp [h1]
    have ih2 := ih (fun u hu => hnone u (List.mem_cons_of_mem _ hu))
    unfold findConfirmationRange at ih2 ⊢
    simpa [List.find?_cons, hpx] using ih2

/-- C1 (amended): for a `Created` order with `finalization_info = Confirmed{n}`
and USD worth `w`, `processOrder` selects the first configured range with
`usdWorthFrom < w ≤ usdWorthTo` (in particular a worth equal to a range's upper
bound matches it), rejects — returning with the state unchanged, so with neither
a fulfillment nor a mempool entry — when no range matches, when `n` is below the
matched range's `minBlockConfirmations`, or when the matched range's
`minBlockConfirmations` is 0 (the JS truthiness guard treats such a range as
absent), and otherwise continues processing with the mempool barred. -/
theorem processOrder_confirmationPolicy (c : Bool) (ext : String → ExtOutcomes)
    (s : ProcState) (id : String) (ctx : OrderCtx) (n : ℕ) (w : ℚ)
    (hmap : mapGet s.incomingOrdersMap id = some ctx)
    (hb : (ext id).bucketFound = true)
    (ht : (ext id).takeOrderStatusSet = Except.ok false)
    (hg : (ext id).giveOrderCreated = Except.ok true)
    (hst : ctx.status = OrderInfoStatus.Created)
    (hfin : ctx.finalizationInfo = FinalizationInfo.Confirmed n)
    (hw : (ext id).usdWorth = Except.ok w) :
    (∀ r, findConfirmationRange ctx.giveChainRanges w = some r →
        r ∈ ctx.giveChainRanges ∧ r.usdWorthFrom < w ∧ w ≤ r.usdWorthTo)
  ∧ (∀ l1 r l2, ctx.giveChainRanges = l1 ++ r :: l2 →
        (∀ u ∈ l1, ¬ (u.usdWorthFrom < w ∧ w ≤ u.usdWorthTo)) →
        r.usdWorthFrom < w → w ≤ r.usdWorthTo →
        findConfirmationRange ctx.giveChainRanges w = some r)
  ∧ (findConfirmationRange ctx.giveChainRanges w = none →
        processOrder c ext s id = (s, Except.ok ()))
  ∧ (∀ r, findConfirmationRange ctx.giveChainRanges w = some r →
        ¬ r.minBlockConfirmations = 0 → n < r.minBlockConfirmations →
        processOrder c ext s id = (s, Except.ok ()))
  ∧ (∀ r, findConfirmationRange ctx.giveChainRanges w = some r →
        ¬ r.minBlockConfirmations = 0 → r.minBlockConfirmations ≤ n →
        processOrder c ext s id =
          processOrderAfterConfirmation c (ext id) false ctx.attempts s id)
  ∧ (∀ r, findConfirmationRange ctx.giveChainRanges w = some r →
        r.minBlockConfirmations = 0 →
        processOrder c ext s id = (s, Except.ok ())) := by
  have hstep : processOrder c ext s id =
      (match confirmationCheck (ext id) s id ctx with
       | ConfirmationOutcome.thrown => (s, Except.error ())
       | ConfirmationOutcome.finish s2 => (s2, Except.ok ())
       | ConfirmationOutcome.proceed allow =>
           processOrderAfterConfirmation c (ext id) allow ctx.attempts s id) := by
    unfold processOrder
    rw [hmap, ht, hg]
    simp [hb]
  have hcc : confirmationCheck (ext id) s id ctx =
      (match findConfirmationRange ctx.giveChainRanges w with
       | some range =>
           if ¬ range.minBlockConfirmations = 0 then
             (if n < range.minBlockConfirmations then ConfirmationOutcome.finish s
              else ConfirmationOutcome.proceed false)
           else ConfirmationOutcome.finish s
       | none => ConfirmationOutcome.finish s) := by
    unfold confirmationCheck
    rw [hfin, hw]
    simp [hst]
  refine ⟨?_, ?_, ?_, ?_, ?_, ?_⟩
  · intro r hr
    exact findConfirmationRange_some _ _ _ hr
  · intro l1 r l2 hsp hnone hfrom hto
    rw [hsp]
    exact findConfirmationRange_first l1 r l2 w hnone hfrom hto
  · intro hnone
    rw [hstep, hcc, hnone]
  · intro r hr hne hlt
    rw [hstep, hcc, hr]
    simp [hne, hlt]
  · intro r hr hne hge
    rw [hstep, hcc, hr]
    simp [hne, Nat.not_lt.mpr hge]
  · intro r hr h0
    rw [hstep, hcc, hr]
    simp [h0]

theorem processOrder_confirmationPolicy_witness :
    processOrder false extOk stConfirmed13 "a" =
      processOrderAfterConfirmation false (extOk "a") false 0 stConfirmed13 "a"
  ∧ findConfirmationRange ctxConfirmed13.giveChainRanges 500 =
      some { usdWorthFrom := 0, usdWorthTo := 1000, minBlockConfirmations := 12 } := by
  constructor
  · exact (processOrder_confirmationPolicy false extOk stConfirmed13 "a" ctxConfirmed13
      13 500 rfl rfl rfl rfl rfl rfl rfl).2.2.2.2.1
      { usdWorthFrom := 0, usdWorthTo := 1000, minBlockConfirmations := 12 }
      (by decide) (by decide) (by decide)
  · decide

/-- C1 counterexample: an order worth 500 USD matches the configured range
`(0, 1000]` whose `minBlockConfirmations` is 0.  The claim says such a matched
range accepts every announced confirmation count, yet `processOrder` returns at
the confirmation stage with the state unchanged (no mempool entry, no broadcast)
instead of continuing past it. -/
theorem processOrder_minZeroRange_rejects :
    findConfirmationRange ctxConfirmedZeroRange.giveChainRanges 500 =
      some { usdWorthFrom := 0, usdWorthTo := 1000, minBlockConfirmations := 0 }
  ∧ processOrder false extOk stConfirmedZeroRange "a" =
      (stConfirmedZeroRange, Except.ok ())
  ∧ processOrder false extOk stConfirmedZeroRange "a" ≠
      processOrderAfterConfirmation false (extOk "a") false 0 stConfirmedZeroRange "a" := by
  refine ⟨by decide, by decide, by decide⟩

theorem mapSrcThresholds_ok_iff (chain : SupportedChain) (d : Option ℚ)
    (ts : List RawSrcThreshold) :
    (∃ l, mapSrcThresholds chain d ts = Except.ok l) ↔
      ∀ t ∈ ts, t.minBlockConfirmations.getD 0 < BLOCK_CONFIRMATIONS_HARD_CAPS chain := by
  induction ts with
  | nil =>
    constructor
    · intro _ t ht
      cases ht
    · intro _
      exact ⟨[], rfl⟩
  | cons t ts ih =>
    constructor
    · rintro ⟨l, hl⟩
      unfold mapSrcThresholds at hl
      split at hl
      · cases hl
      · rename_i hcap
        intro u hu
        rcases List.mem_cons.mp hu with h | h
        · subst h
          omega
        · rcases hres : mapSrcThresholds chain d ts with e | rest
          · rw [hres] at hl
            cases hl
          · exact ih.mp ⟨rest, hres⟩ u h
    · intro hall
      unfold mapSrcThresholds
      rw [if_neg (by have := hall t (List.mem_cons_self t ts); omega)]
      obtain ⟨l, hl⟩ := ih.mpr (fun u hu => hall u (List.mem_cons_of_mem _ hu))
      rw [hl]
      exact ⟨_, rfl⟩

/-- C8: `init` (through `getSrcConstraintsPerOrderValue`) throws for any
required-confirmations threshold whose `minBlockConfirmations` (defaulted to 0)
is ≥ the chain's hard cap and accepts every chain configuration all of whose
thresholds are strictly below it; the hard caps include 12 for Ethereum, 256 for
Polygon and 32 for Solana. -/
theorem srcConstraints_hardCap_validation :
    (∀ (chain : SupportedChain) (cfg : RawSrcConstraints),
        (∃ l, getSrcConstraintsPerOrderValue chain cfg = Except.ok l) ↔
          ∀ t ∈ cfg.requiredConfirmationsThresholds,
            t.minBlockConfirmations.getD 0 < BLOCK_CONFIRMATIONS_HARD_CAPS chain)
  ∧ BLOCK_CONFIRMATIONS_HARD_CAPS SupportedChain.Ethereum = 12
  ∧ BLOCK_CONFIRMATIONS_HARD_CAPS SupportedChain.Polygon = 256
  ∧ BLOCK_CONFIRMATIONS_HARD_CAPS SupportedChain.Solana = 32 := by
  refine ⟨?_, rfl, rfl, rfl⟩
  intro chain cfg
  rw [← mapSrcThresholds_ok_iff chain cfg.fulfillmentDelay]
  unfold getSrcConstraintsPerOrderValue
  constructor
  · rintro ⟨l, hl⟩
    rcases hres : mapSrcThresholds chain cfg.fulfillmentDelay cfg.requiredConfirmationsThresholds
      with e | mapped
    · rw [hres] at hl
      cases hl
    · exact ⟨mapped, rfl⟩
  · rintro ⟨l, hl⟩
    rw [hl]
    exact ⟨_, rfl⟩

theorem srcConstraints_hardCap_validation_witness :
    (∃ l, getSrcConstraintsPerOrderValue SupportedChain.Ethereum
        { fulfillmentDelay := none,
          requiredConfirmationsThresholds :=
            [{ thresholdAmountInUSD := 100, minBlockConfirmations := some 11,
               fulfillmentDelay := none }] } = Except.ok l)
  ∧ ¬ (∃ l, getSrcConstraintsPerOrderValue SupportedChain.Ethereum
        { fulfillmentDelay := none,
          requiredConfirmationsThresholds :=
            [{ thresholdAmountInUSD := 100, minBlockConfirmations := some 12,
               fulfillmentDelay := none }] } = Except.ok l) := by
  constructor
  · exact (srcConstraints_hardCap_validation.1 SupportedChain.Ethereum _).mpr (by decide)
  · intro h
    have := (srcConstraints_hardCap_validation.1 SupportedChain.Ethereum _).mp h
    have h12 := this { thresholdAmountInUSD := 100, minBlockConfirmations := some 12,
                       fulfillmentDelay := none } (List.mem_singleton.mpr rfl)
    simp [BLOCK_CONFIRMATIONS_HARD_CAPS] at h12

/-- C9: `setSupportedChains` only evaluates the discarded comparison
`this.#connectors[chainId] === null` (a `===` where an assignment was apparently
intended), so the connector table is unchanged and `getSupportedChains` returns
the same chains before and after the call, for every prior state. -/
theorem setSupportedChains_noop (svc : SwapConnectorImplementationService)
    (chains : List ℕ) :
    setSupportedChains svc chains = svc
  ∧ getSupportedChains (setSupportedChains svc chains) = getSupportedChains svc :=
  ⟨rfl, rfl⟩

/-- C10: `resyncDecimals` is the identity when both tokens have the same number
of decimals, truncating integer division by `10 ^ (decimalsIn − decimalsOut)`
when the input token has more decimals, and exact multiplication by
`10 ^ (decimalsOut − decimalsIn)` otherwise; in particular a round trip from more
decimals to fewer and back never gains value on a nonnegative amount. -/
theorem resyncDecimals_spec (g : ℕ → ℕ → ℕ) (cin tin cout tout : ℕ) (a : ℤ) :
    (g cin tin = g cout tout → resyncDecimals g cin tin a cout tout = a)
  ∧ (g cout tout < g cin tin →
      resyncDecimals g cin tin a cout tout = a.tdiv (10 ^ (g cin tin - g cout tout)))
  ∧ (g cin tin < g cout tout →
      resyncDecimals g cin tin a cout tout = a * 10 ^ (g cout tout - g cin tin))
  ∧ (0 ≤ a →
      resyncDecimals g cout tout (resyncDecimals g cin tin a cout tout) cin tin ≤ a) := by
  have heq : ∀ (b : ℤ) (c1 t1 c2 t2 : ℕ), g c1 t1 = g c2 t2 →
      resyncDecimals g c1 t1 b c2 t2 = b := by
    intro b c1 t1 c2 t2 h
    simp [resyncDecimals, h]
  have hdiv : ∀ (b : ℤ) (c1 t1 c2 t2 : ℕ), g c2 t2 < g c1 t1 →
      resyncDecimals g c1 t1 b c2 t2 = b.tdiv (10 ^ (g c1 t1 - g c2 t2)) := by
    intro b c1 t1 c2 t2 h
    have hne : ¬ g c1 t1 = g c2 t2 := by omega
    have hpos : (0 : ℤ) < (g c1 t1 : ℤ) - (g c2 t2 : ℤ) := by omega
    have htn : ((g c1 t1 : ℤ) - (g c2 t2 : ℤ)).toNat = g c1 t1 - g c2 t2 := by omega
    simp only [resyncDecimals, if_neg hne, if_pos hpos, htn]
  have hmul : ∀ (b : ℤ) (c1 t1 c2 t2 : ℕ), g c1 t1 < g c2 t2 →
      resyncDecimals g c1 t1 b c2 t2 = b * 10 ^ (g c2 t2 - g c1 t1) := by
    intro b c1 t1 c2 t2 h
    have hne : ¬ g c1 t1 = g c2 t2 := by omega
    have hneg : ¬ (0 : ℤ) < (g c1 t1 : ℤ) - (g c2 t2 : ℤ) := by omega
    have htn : (-((g c1 t1 : ℤ) - (g c2 t2 : ℤ))).toNat = g c2 t2 - g c1 t1 := by omega
    simp only [resyncDecimals, if_neg hne, if_neg hneg, htn]
  refine ⟨heq a cin tin cout tout, hdiv a cin tin cout tout, hmul a cin tin cout tout, ?_⟩
  intro ha
  rcases Nat.lt_trichotomy (g cin tin) (g cout tout) with hlt | heq2 | hgt
  · rw [hmul a cin tin cout tout hlt, hdiv _ cout tout cin tin hlt,
        Int.mul_tdiv_cancel _ (pow_ne_zero _ (by norm_num))]
  · rw [heq a cin tin cout tout heq2, heq a cout tout cin tin heq2.symm]
  · rw [hdiv a cin tin cout tout hgt, hmul _ cout tout cin tin hgt,
        Int.tdiv_eq_ediv ha (by positivity)]
    exact Int.ediv_mul_le _ (pow_ne_zero _ (by norm_num))

theorem mapGet_mapSet_self (m : List (String × OrderCtx)) (k : String) (v : OrderCtx) :
    mapGet (mapSet m k v) k = some v := by
  unfold mapGet mapSet
  have hnone : (m.filter (fun e => e.1 ≠ k)).find? (fun e => e.1 = k) = none := by
    rw [List.find?_eq_none]
    intro e he
    have h2 := (List.mem_filter.mp he).2
    simp at h2 ⊢
    exact h2
  rw [List.find?_append, hnone]
  simp

theorem tryProcess_locked_created (c : Bool) (ext : String → ExtOutcomes)
    (s : ProcState) (id : String) (ctx : OrderCtx)
    (hmap : mapGet s.incomingOrdersMap id = some ctx)
    (hlock : s.isLocked = true) (hst : ctx.status = OrderInfoStatus.Created) :
    tryProcess c ext s id = { s with priorityQueue := setAdd s.priorityQueue id } := by
  rw [tryProcess, hmap]
  simp [hlock, hst]

theorem tryProcess_locked_archival (c : Bool) (ext : String → ExtOutcomes)
    (s : ProcState) (id : String) (ctx : OrderCtx)
    (hmap : mapGet s.incomingOrdersMap id = some ctx)
    (hlock : s.isLocked = true) (hst : ctx.status = OrderInfoStatus.ArchivalCreated) :
    tryProcess c ext s id = { s with queue := setAdd s.queue id } := by
  rw [tryProcess, hmap]
  simp [hlock, hst]

theorem pickNextOrder_snd_isLocked (s : ProcState) :
    (pickNextOrder s).2.isLocked = s.isLocked := by
  unfold pickNextOrder
  repeat' split
  all_goals rfl

/-- The context of an order as scheduled in the mempool while the pipeline is
processing another order: the slot is held and the order "a" sits in the mempool
scheduler. -/
def stLockedMempooled : ProcState :=
  { emptyProcState with isLocked := true, mempool := [("a", none)] }

/-- C2 (evaluated at the failing input): the `Created` handler of `process` only
stores the context and calls `tryProcess` — contrary to its own comment
"must remove this order from all queues bc new order can be an updated version" it
does not delete the order from the mempool scheduler — so handling a `Created`
event for an order currently scheduled in the mempool while the slot is held
leaves the order simultaneously in the mempool scheduler and the priority queue,
violating the claimed disjointness invariant. -/
theorem process_created_leaves_mempool_and_priority :
    ("a", (none : Option ℕ)) ∈
      (process false extOk stLockedMempooled "a" ctxCreatedFinalized).mempool
  ∧ "a" ∈ (process false extOk stLockedMempooled "a" ctxCreatedFinalized).priorityQueue := by
  have hp : process false extOk stLockedMempooled "a" ctxCreatedFinalized =
      tryProcess false extOk
        { stLockedMempooled with
            incomingOrdersMap :=
              mapSet stLockedMempooled.incomingOrdersMap "a" ctxCreatedFinalized } "a" := rfl
  have h := tryProcess_locked_created false extOk
      { stLockedMempooled with
          incomingOrdersMap :=
            mapSet stLockedMempooled.incomingOrdersMap "a" ctxCreatedFinalized }
      "a" ctxCreatedFinalized (mapGet_mapSet_self _ _ _) rfl rfl
  rw [hp, h]
  exact ⟨by decide, by decide⟩

/-- An `ArchivalFulfilled` event context. -/
def ctxArchivalFulfilled : OrderCtx :=
  { status := OrderInfoStatus.ArchivalFulfilled, finalizationInfo := FinalizationInfo.Finalized,
    attempts := 0, giveChainRanges := [] }

/-- A state in which order "a" sits in the priority queue and the mempool. -/
def stQueuedA : ProcState :=
  { emptyProcState with priorityQueue := ["a"], mempool := [("a", none)] }

/-- C3 counterexample: on an `ArchivalFulfilled` event `process` only hands the
order to the batch unlocker; the order id stays in the priority queue and the
mempool scheduler, so it is not "removed from every internal queue" as the claim
states for `ArchivalFulfilled`. -/
theorem process_archivalFulfilled_no_cleanup :
    "a" ∈ (process false extOk stQueuedA "a" ctxArchivalFulfilled).priorityQueue
  ∧ ("a", (none : Option ℕ)) ∈ (process false extOk stQueuedA "a" ctxArchivalFulfilled).mempool := by
  exact ⟨by decide, by decide⟩

/-- C3 (amended): a `Fulfilled` event removes the order id from every internal
queue (priority queue, secondary queue, incoming-orders map, mempool scheduler)
and hands the order to the batch unlocker; a `Cancelled` event removes it from
every internal queue; an `ArchivalFulfilled` event hands the order to the batch
unlocker but leaves the internal queues untouched. -/
theorem process_terminal_cleanup (c : Bool) (ext : String → ExtOutcomes)
    (s : ProcState) (id : String) (ctx : OrderCtx) :
    (ctx.status = OrderInfoStatus.Fulfilled →
        process c ext s id ctx =
          { clearInternalQueues s id with
              unlockedOrders := (clearInternalQueues s id).unlockedOrders ++ [id] }
      ∧ id ∉ (process c ext s id ctx).priorityQueue
      ∧ id ∉ (process c ext s id ctx).queue
      ∧ (∀ v, (id, v) ∉ (process c ext s id ctx).incomingOrdersMap)
      ∧ (∀ d, (id, d) ∉ (process c ext s id ctx).mempool)
      ∧ id ∈ (process c ext s id ctx).unlockedOrders)
  ∧ (ctx.status = OrderInfoStatus.Cancelled →
        process c ext s id ctx = clearInternalQueues s id
      ∧ id ∉ (process c ext s id ctx).priorityQueue
      ∧ id ∉ (process c ext s id ctx).queue
      ∧ (∀ v, (id, v) ∉ (process c ext s id ctx).incomingOrdersMap)
      ∧ (∀ d, (id, d) ∉ (process c ext s id ctx).mempool))
  ∧ (ctx.status = OrderInfoStatus.ArchivalFulfilled →
        process c ext s id ctx = { s with unlockedOrders := s.unlockedOrders ++ [id] }
      ∧ id ∈ (process c ext s id ctx).unlockedOrders) := by
  refine ⟨?_, ?_, ?_⟩
  · intro hst
    have hp : process c ext s id ctx =
        { clearInternalQueues s id with
            unlockedOrders := (clearInternalQueues s id).unlockedOrders ++ [id] } := by
      simp [process, hst]
    refine ⟨hp, ?_, ?_, ?_, ?_, ?_⟩
    all_goals rw [hp]
    · simp [clearInternalQueues, setDelete, List.mem_filter]
    · simp [clearInternalQueues, setDelete, List.mem_filter]
    · intro v
      simp [clearInternalQueues, mapDelete, List.mem_filter]
    · intro d
      simp [clearInternalQueues, mempoolDelete, List.mem_filter]
    · simp
  · intro hst
    have hp : process c ext s id ctx = clearInternalQueues s id := by
      simp [process, hst]
    refine ⟨hp, ?_, ?_, ?_, ?_⟩
    all_goals rw [hp]
    · simp [clearInternalQueues, setDelete, List.mem_filter]
    · simp [clearInternalQueues, setDelete, List.mem_filter]
    · intro v
      simp [clearInternalQueues, mapDelete, List.mem_filter]
    · intro d
      simp [clearInternalQueues, mempoolDelete, List.mem_filter]
  · intro hst
    have hp : process c ext s id ctx =
        { s with unlockedOrders := s.unlockedOrders ++ [id] } := by
      simp [process, hst]
    refine ⟨hp, ?_⟩
    rw [hp]
    simp

/-- A `Fulfilled` event context. -/
def ctxFulfilled : OrderCtx :=
  { status := OrderInfoStatus.Fulfilled, finalizationInfo := FinalizationInfo.Finalized,
    attempts := 0, giveChainRanges := [] }

theorem process_terminal_cleanup_witness :
    process false extOk stQueuedA "a" ctxFulfilled =
      { clearInternalQueues stQueuedA "a" with
          unlockedOrders := (clearInternalQueues stQueuedA "a").unlockedOrders ++ ["a"] }
  ∧ "a" ∉ (process false extOk stQueuedA "a" ctxFulfilled).priorityQueue
  ∧ "a" ∈ (process false extOk stQueuedA "a" ctxFulfilled).unlockedOrders := by
  have h := (process_terminal_cleanup false extOk stQueuedA "a" ctxFulfilled).1 rfl
  exact ⟨h.1, h.2.1, h.2.2.2.2.2⟩

/-- The oracle on which everything succeeds except that the reserve-token balance
is insufficient. -/
def extBalanceFail : String → ExtOutcomes := fun i =>
  { extOk i with balanceSufficient := Except.ok false }

/-- C4 (evaluated at the failing input): the order "a" is `Created` with
`Confirmed{13}` and passes the confirmation policy (its range requires 12), which
sets `allowPlaceToMempool = false` ("order won't appear in the mempool"); the
balance check then fails — and the code places the order into the mempool
scheduler anyway, because the insufficient-balance branch never consults
`allowPlaceToMempool`. -/
theorem processOrder_balanceShortfall_mempools_nonFinalized :
    processOrder false extBalanceFail stConfirmed13 "a" =
      (mempoolAddTo stConfirmed13 "a" none, Except.ok ())
  ∧ ("a", (none : Option ℕ)) ∈ (processOrder false extBalanceFail stConfirmed13 "a").1.mempool := by
  exact ⟨by decide, by decide⟩

/-- C5: while the slot is held, a delivered `Created` order is enqueued into the
priority queue and a delivered `ArchivalCreated` order into the secondary queue
(each after its context is stored); on release, `pickNextOrder` drains the
priority queue first and only when it is empty the secondary queue, removing the
picked id from both queues. -/
theorem pipeline_enqueue_and_drain (c : Bool) (ext : String → ExtOutcomes)
    (s : ProcState) (id : String) (ctx : OrderCtx) :
    (s.isLocked = true → ctx.status = OrderInfoStatus.Created →
        process c ext s id ctx =
          { s with incomingOrdersMap := mapSet s.incomingOrdersMap id ctx,
                   priorityQueue := setAdd s.priorityQueue id })
  ∧ (s.isLocked = true → ctx.status = OrderInfoStatus.ArchivalCreated →
        process c ext s id ctx =
          { s with incomingOrdersMap := mapSet s.incomingOrdersMap id ctx,
                   queue := setAdd s.queue id })
  ∧ (∀ p rest, s.priorityQueue = p :: rest → ¬ p = "" →
        pickNextOrder s = (some p,
          { s with priorityQueue := setDelete s.priorityQueue p,
                   queue := setDelete s.queue p }))
  ∧ (s.priorityQueue = [] → ∀ q rest, s.queue = q :: rest → ¬ q = "" →
        pickNextOrder s = (some q,
          { s with priorityQueue := setDelete s.priorityQueue q,
                   queue := setDelete s.queue q }))
  ∧ (∀ nid s2, pickNextOrder s = (some nid, s2) →
        nid ∉ s2.priorityQueue ∧ nid ∉ s2.queue) := by
  refine ⟨?_, ?_, ?_, ?_, ?_⟩
  · intro hl hstat
    have h := tryProcess_locked_created c ext
        { s with incomingOrdersMap := mapSet s.incomingOrdersMap id ctx } id ctx
        (mapGet_mapSet_self _ _ _) (by simpa using hl) hstat
    calc process c ext s id ctx
        = tryProcess c ext
            { s with incomingOrdersMap := mapSet s.incomingOrdersMap id ctx } id := by
          simp [process, hstat]
      _ = _ := h
  · intro hl hstat
    have h := tryProcess_locked_archival c ext
        { s with incomingOrdersMap := mapSet s.incomingOrdersMap id ctx } id ctx
        (mapGet_mapSet_self _ _ _) (by simpa using hl) hstat
    calc process c ext s id ctx
        = tryProcess c ext
            { s with incomingOrdersMap := mapSet s.incomingOrdersMap id ctx } id := by
          simp [process, hstat]
      _ = _ := h
  · intro p rest hpq hp
    unfold pickNextOrder
    rw [hpq]
    simp [jsTruthyString, hp]
  · intro hpq q rest hq hqne
    unfold pickNextOrder
    rw [hpq, hq]
    simp [jsTruthyString, hqne]
  · intro nid s2 h
    unfold pickNextOrder at h
    split at h
    · simp at h
    · rename_i nid' heq
      split at h
      · simp at h
      · rename_i hne
        injection h with h1 h2
        injection h1 with h1
        subst h1
        subst h2
        exact ⟨setDelete_not_mem _ _, setDelete_not_mem _ _⟩

/-- The state holding only the `Created` order "b", with the slot held. -/
def stLockedB : ProcState :=
  { emptyProcState with
      isLocked := true
      incomingOrdersMap := [("b", ctxCreatedFinalized)] }

/-- A state with "p" in the priority queue and "q" in the secondary queue. -/
def stPQ : ProcState :=
  { emptyProcState with priorityQueue := ["p"], queue := ["q"] }

theorem pipeline_enqueue_and_drain_witness :
    process false extOk stLockedB "b" ctxCreatedFinalized
      = { stLockedB with
            incomingOrdersMap := mapSet stLockedB.incomingOrdersMap "b" ctxCreatedFinalized,
            priorityQueue := setAdd stLockedB.priorityQueue "b" }
  ∧ pickNextOrder stPQ = (some "p",
      { stPQ with priorityQueue := setDelete stPQ.priorityQueue "p",
                  queue := setDelete stPQ.queue "p" }) := by
  constructor
  · exact (pipeline_enqueue_and_drain false extOk stLockedB "b" ctxCreatedFinalized).1 rfl rfl
  · exact (pipeline_enqueue_and_drain false extOk stPQ "p" ctxCreatedFinalized).2.2.1
      "p" [] rfl (by decide)

/-- C6: the in-flight lock is an invariant of `tryProcess` — in particular a
pipeline entered with the lock free ends with the lock free — and when the lock
is free `tryProcess` always continues into the drain continuation (releasing the
lock and picking the next queued order through `pickNextOrder`), regardless of
whether `processOrder` returned normally or threw: the continuation after
`afterProcessing` is the same for every termination mode of `processOrder`,
whose `Except` result is caught and only logged. -/
theorem tryProcess_releases_lock_and_continues (c : Bool) (ext : String → ExtOutcomes) :
    (∀ s id, (tryProcess c ext s id).isLocked = s.isLocked)
  ∧ (∀ s id ctx, s.isLocked = false →
      mapGet s.incomingOrdersMap id = some ctx →
      tryProcess c ext s id =
        (if hp : (pickNextOrder (afterProcessing c ext s id)).1.isSome then
           tryProcess c ext (pickNextOrder (afterProcessing c ext s id)).2
             ((pickNextOrder (afterProcessing c ext s id)).1.get hp)
         else (pickNextOrder (afterProcessing c ext s id)).2)) := by
  constructor
  · intro s id
    induction s, id using tryProcess.induct c ext with
    | case1 s id h =>
        rw [tryProcess, h]
    | case2 s id ctx h hl hst =>
        rw [tryProcess, h]
        simp only [hl, if_true, hst]
    | case3 s id ctx h hl hst =>
        rw [tryProcess, h]
        simp only [hl, if_true, hst]
    | case4 s id ctx h hl =>
        rw [tryProcess, h]
        simp only [hl, if_true]
    | case5 s id ctx h hl hp ih =>
        have hs0 : s.isLocked = false := by simpa using hl
        have hunf : tryProcess c ext s id =
            (if hp2 : (pickNextOrder (afterProcessing c ext s id)).1.isSome then
               tryProcess c ext (pickNextOrder (afterProcessing c ext s id)).2
                 ((pickNextOrder (afterProcessing c ext s id)).1.get hp2)
             else (pickNextOrder (afterProcessing c ext s id)).2) := by
          rw [tryProcess, h]
          simp [hs0]
        rw [hunf, dif_pos hp, ih, pickNextOrder_snd_isLocked]
        simp [afterProcessing, hs0]
    | case6 s id ctx h hl hp =>
        have hs0 : s.isLocked = false := by simpa using hl
        have hunf : tryProcess c ext s id =
            (if hp2 : (pickNextOrder (afterProcessing c ext s id)).1.isSome then
               tryProcess c ext (pickNextOrder (afterProcessing c ext s id)).2
                 ((pickNextOrder (afterProcessing c ext s id)).1.get hp2)
             else (pickNextOrder (afterProcessing c ext s id)).2) := by
          rw [tryProcess, h]
          simp [hs0]
        rw [hunf, dif_neg hp, pickNextOrder_snd_isLocked]
        simp [afterProcessing, hs0]
  · intro s id ctx hs hmapx
    rw [tryProcess, hmapx]
    simp [hs]

/-- The oracle on which the take-chain order-status read rejects, making
`processOrder` throw. -/
def extThrow : String → ExtOutcomes := fun i =>
  { extOk i with takeOrderStatusSet := Except.error () }

/-- The state holding only the `Created` order "e", with the slot free. -/
def stThrowE : ProcState :=
  { emptyProcState with incomingOrdersMap := [("e", ctxCreatedFinalized)] }

theorem tryProcess_releases_lock_and_continues_witness :
    tryProcess false extThrow stThrowE "e" =
      (if hp : (pickNextOrder (afterProcessing false extThrow stThrowE "e")).1.isSome then
         tryProcess false extThrow (pickNextOrder (afterProcessing false extThrow stThrowE "e")).2
           ((pickNextOrder (afterProcessing false extThrow stThrowE "e")).1.get hp)
       else (pickNextOrder (afterProcessing false extThrow stThrowE "e")).2)
  ∧ (processOrder false extThrow { stThrowE with isLocked := true } "e").2 = Except.error ()
  ∧ (tryProcess false extThrow stThrowE "e").isLocked = false := by
  refine ⟨?_, rfl, ?_⟩
  · exact (tryProcess_releases_lock_and_continues false extThrow).2 stThrowE "e"
      ctxCreatedFinalized rfl rfl
  · have h := (tryProcess_releases_lock_and_continues false extThrow).1 stThrowE "e"
    rw [h]
    rfl

/-- C7: on an EVM take chain, when the final fulfill-tx gas estimate strictly
exceeds the gas cap declared during pre-estimation
(`Math.round(preEstimatedGas * 1.25)`), `processOrder` does not broadcast and
re-queues the order into the mempool — with the explicit 5-second fast-track
delay while the context's `attempts` is below 2, and with no explicit delay
otherwise, which the mempool service resolves to the standard backoff
(`mempoolInterval + attempts * mempoolMaxDelayStep`, by default 60 and 30
seconds). -/
theorem processOrder_gasBlowout_fastTrack (ext : String → ExtOutcomes)
    (s : ProcState) (id : String) (ctx : OrderCtx) (g fg : ℕ)
    (hmap : mapGet s.incomingOrdersMap id = some ctx)
    (hst : ctx.status = OrderInfoStatus.ArchivalCreated)
    (hb : (ext id).bucketFound = true)
    (ht : (ext id).takeOrderStatusSet = Except.ok false)
    (hg : (ext id).giveOrderCreated = Except.ok true)
    (hbal : (ext id).balanceSufficient = Except.ok true)
    (hpre : (ext id).preEstimatedGas = Except.ok g)
    (hcalc : (ext id).calcExpectedTakeAmount =
      Except.ok { isProfitable := true, reserveTokenAgrees := true })
    (hbuild : (ext id).finalTxBuild = Except.ok ())
    (hfg : (ext id).finalGas = Except.ok fg)
    (hcap : evmGasLimitCap g < fg) :
    processOrder true ext s id =
      (mempoolAddTo s id (if ctx.attempts < 2 then some 5 else none), Except.ok ())
  ∧ (processOrder true ext s id).1.sentTxs = s.sentTxs
  ∧ (ctx.attempts < 2 → (id, some 5) ∈ (processOrder true ext s id).1.mempool)
  ∧ (2 ≤ ctx.attempts →
      (id, (none : Option ℕ)) ∈ (processOrder true ext s id).1.mempool
      ∧ mempoolEffectiveDelay 60 30 ctx.attempts none = 60 + ctx.attempts * 30) := by
  have hcc : confirmationCheck (ext id) s id ctx = ConfirmationOutcome.proceed true := by
    unfold confirmationCheck
    simp [hst]
  have hstep : processOrder true ext s id =
      processOrderAfterConfirmation true (ext id) true ctx.attempts s id := by
    unfold processOrder
    rw [hmap, ht, hg]
    simp [hb, hcc]
  have hconf : processOrderAfterConfirmation true (ext id) true ctx.attempts s id =
      processOrderAfterEstimation true (ext id) true (some (evmGasLimitCap g))
        ctx.attempts s id := by
    unfold processOrderAfterConfirmation
    rw [hbal, hpre]
    simp
  have hest : processOrderAfterEstimation true (ext id) true (some (evmGasLimitCap g))
      ctx.attempts s id =
      (mempoolAddTo s id (if ctx.attempts < 2 then some 5 else none), Except.ok ()) := by
    unfold processOrderAfterEstimation
    rw [hcalc, hbuild, hfg]
    simp [hcap]
  have heq : processOrder true ext s id =
      (mempoolAddTo s id (if ctx.attempts < 2 then some 5 else none), Except.ok ()) :=
    hstep.trans (hconf.trans hest)
  refine ⟨heq, by rw [heq]; rfl, ?_, ?_⟩
  · intro hlt
    rw [heq]
    simp [mempoolAddTo, mempoolAddOrder, hlt]
  · intro hge
    constructor
    · rw [heq]
      simp [mempoolAddTo, mempoolAddOrder, Nat.not_lt.mpr hge]
    · simp [mempoolEffectiveDelay]

/-- The oracle on which everything succeeds but the final gas estimate (140000)
exceeds the declared cap `Math.round(100000 * 1.25) = 125000`. -/
def extGasBlowout : String → ExtOutcomes := fun i =>
  { extOk i with finalGas := Except.ok 140000 }

/-- An `ArchivalCreated` order with no prior attempts. -/
def ctxArchival0 : OrderCtx :=
  { status := OrderInfoStatus.ArchivalCreated, finalizationInfo := FinalizationInfo.Finalized,
    attempts := 0, giveChainRanges := [] }

/-- The same order on its third processing attempt. -/
def ctxArchival2 : OrderCtx :=
  { status := OrderInfoStatus.ArchivalCreated, finalizationInfo := FinalizationInfo.Finalized,
    attempts := 2, giveChainRanges := [] }

/-- States holding only the gas-blowout order "d", at attempts 0 and 2. -/
def stArchival0 : ProcState :=
  { emptyProcState with incomingOrdersMap := [("d", ctxArchival0)] }

/-- See `stArchival0`. -/
def stArchival2 : ProcState :=
  { emptyProcState with incomingOrdersMap := [("d", ctxArchival2)] }

theorem processOrder_gasBlowout_fastTrack_witness :
    processOrder true extGasBlowout stArchival0 "d" =
      (mempoolAddTo stArchival0 "d" (if ctxArchival0.attempts < 2 then some 5 else none),
        Except.ok ())
  ∧ ("d", some 5) ∈ (processOrder true extGasBlowout stArchival0 "d").1.mempool
  ∧ ("d", (none : Option ℕ)) ∈ (processOrder true extGasBlowout stArchival2 "d").1.mempool := by
  refine ⟨?_, ?_, ?_⟩
  · exact (processOrder_gasBlowout_fastTrack extGasBlowout stArchival0 "d" ctxArchival0
      100000 140000 rfl rfl rfl rfl rfl rfl rfl rfl rfl rfl (by decide)).1
  · exact (processOrder_gasBlowout_fastTrack extGasBlowout stArchival0 "d" ctxArchival0
      100000 140000 rfl rfl rfl rfl rfl rfl rfl rfl rfl rfl (by decide)).2.2.1 (by decide)
  · exact ((processOrder_gasBlowout_fastTrack extGasBlowout stArchival2 "d" ctxArchival2
      100000 140000 rfl rfl rfl rfl rfl rfl rfl rfl rfl rfl (by decide)).2.2.2 (by decide)).1

theorem resyncDecimals_spec_witness :
    resyncDecimals (fun c _ => if c = 0 then 6 else 2) 0 0 1005 1 1
      = (1005 : ℤ).tdiv (10 ^ (6 - 2))
  ∧ resyncDecimals (fun c _ => if c = 0 then 6 else 2) 1 1 1005 0 0
      = 1005 * 10 ^ (6 - 2)
  ∧ resyncDecimals (fun c _ => if c = 0 then 6 else 2) 1 1
      (resyncDecimals (fun c _ => if c = 0 then 6 else 2) 0 0 1005 1 1) 0 0 ≤ 1005 := by
  refine ⟨?_, ?_, ?_⟩
  · exact (resyncDecimals_spec (fun c _ => if c = 0 then 6 else 2) 0 0 1 1 1005).2.1
      (by decide)
  · exact (resyncDecimals_spec (fun c _ => if c = 0 then 6 else 2) 1 1 0 0 1005).2.2.1
      (by decide)
  · exact (resyncDecimals_spec (fun c _ => if c = 0 then 6 else 2) 0 0 1 1 1005).2.2.2
      (by decide)

end DlnTaker

